import Mathlib

/-!
Verification development for the employee data-cleaning pipeline
(`data_cleaning.py`).  Strings are modelled as lists of characters;
tables as lists of records.  Character case and whitespace operations
are modelled on the ASCII fragment actually exercised by the pipeline.
-/

namespace EDC

/-- Strings of the pipeline, modelled as lists of characters. -/
abbrev Str := List Char

/-- Conversion from a Lean string literal to the model's string type. -/
def strOf (s : String) : Str := s.data

/-- Whitespace test on a code point (space, tab, newline, carriage
return). -/
def wsCharN (n : Nat) : Bool := n == 32 || n == 9 || n == 10 || n == 13

/-- Whitespace test used by `str.strip` / `pandas.str.strip`. -/
def wsChar (c : Char) : Bool := wsCharN c.toNat

/-- ASCII uppercase letter test. -/
def upChar (c : Char) : Bool := 65 ≤ c.toNat && c.toNat ≤ 90

/-- ASCII lowercase letter test. -/
def lowChar (c : Char) : Bool := 97 ≤ c.toNat && c.toNat ≤ 122

/-- ASCII letter test (models Python's cased-character test on ASCII). -/
def alphaChar (c : Char) : Bool := upChar c || lowChar c

/-- Uppercase an ASCII letter (models `str.upper` on one character). -/
def toUp (c : Char) : Char :=
  if lowChar c then Char.ofNat (c.toNat - 32) else c

/-- Lowercase an ASCII letter (models `str.lower` on one character). -/
def toLow (c : Char) : Char :=
  if upChar c then Char.ofNat (c.toNat + 32) else c

/-- `str.strip`: drop leading and trailing whitespace. -/
def stripL (l : Str) : Str :=
  (((l.dropWhile wsChar).reverse).dropWhile wsChar).reverse

/-- `str.lower` on a whole string. -/
def toLowStr (l : Str) : Str := l.map toLow

/-- Kernel of `str.title`: the boolean records whether the previous
character was a (cased) letter; a letter after a non-letter is
uppercased, a letter after a letter is lowercased. -/
def pyTitleAux : Bool → Str → Str
  | _, [] => []
  | prev, c :: cs =>
    if alphaChar c then
      (if prev then toLow c else toUp c) :: pyTitleAux true cs
    else
      c :: pyTitleAux false cs

/-- Python's `str.title` (as used by `pandas.str.title`). -/
def pyTitle (l : Str) : Str := pyTitleAux false l

/-- `astype(str)` on one cell: a missing value becomes the literal
string "nan", a string value is unchanged. -/
def astypeStr : Option Str → Str
  | none => strOf "nan"
  | some s => s

/-- ASCII digit test. -/
def isDigit (c : Char) : Bool := 48 ≤ c.toNat && c.toNat ≤ 57

/-- Numeric value of a digit string (base 10). -/
def digitsVal (l : Str) : Nat := l.foldl (fun a c => a * 10 + (c.toNat - 48)) 0

/-- All characters are digits. -/
def allDigits (l : Str) : Bool := l.all isDigit

/-- Parse an unsigned decimal numeral: digits with at most one decimal
point and at least one digit (`"4500"`, `"4500.00"`, `".5"`, `"5."`). -/
def parseUDec (l : Str) : Option Rat :=
  let ip := l.takeWhile (fun c => !(c == '.'))
  match l.drop ip.length with
  | [] => if allDigits ip && !ip.isEmpty then some (mkRat (digitsVal ip) 1) else none
  | _ :: fp =>
    if allDigits ip && allDigits fp && !(ip.isEmpty && fp.isEmpty) then
      some (mkRat (digitsVal ip * 10 ^ fp.length + digitsVal fp) (10 ^ fp.length))
    else none

/-- Model of the numeric parser behind `pd.to_numeric(..., errors='coerce')`,
restricted to plain signed decimal numerals; anything else is the
missing marker `none`. -/
def parseDec (l : Str) : Option Rat :=
  match l with
  | '+' :: rest => parseUDec rest
  | '-' :: rest => (parseUDec rest).map (fun q => -q)
  | _ => parseUDec l

/-- Parse a signed integer numeral (used to state the spec's
"`manager_id`: parse as integer"). -/
def parseIntStr (l : Str) : Option Int :=
  match l with
  | '+' :: rest => if allDigits rest && !rest.isEmpty then some (digitsVal rest) else none
  | '-' :: rest => if allDigits rest && !rest.isEmpty then some (-(digitsVal rest : Int)) else none
  | _ => if allDigits l && !l.isEmpty then some (digitsVal l) else none

/-- A calendar date encoded so that the numeric order is chronological. -/
def dateVal (y m d : Nat) : Option Nat :=
  if 1 ≤ m && m ≤ 12 && 1 ≤ d && d ≤ 31 then some (y * 10000 + m * 100 + d) else none

/-- Model of `pd.to_datetime(..., format='mixed', dayfirst=True,
errors='coerce')`, restricted to the ISO `YYYY-MM-DD` and day-first
`DD/MM/YYYY` formats; anything else is the missing marker `none`. -/
def parseDate (l : Str) : Option Nat :=
  match l with
  | [y1, y2, y3, y4, '-', m1, m2, '-', d1, d2] =>
    if allDigits [y1, y2, y3, y4, m1, m2, d1, d2] then
      dateVal (digitsVal [y1, y2, y3, y4]) (digitsVal [m1, m2]) (digitsVal [d1, d2])
    else none
  | [d1, d2, '/', m1, m2, '/', y1, y2, y3, y4] =>
    if allDigits [d1, d2, m1, m2, y1, y2, y3, y4] then
      dateVal (digitsVal [y1, y2, y3, y4]) (digitsVal [m1, m2]) (digitsVal [d1, d2])
    else none
  | _ => none

/-- All ways of splitting a list into a left part and a right part. -/
def splitsL : List Char → List (Str × Str)
  | [] => [([], [])]
  | c :: cs => ([], c :: cs) :: (splitsL cs).map (fun pr => (c :: pr.1, pr.2))

/-- No newline character in the string (the regex `.` wildcard does not
match a newline). -/
def noNL (l : Str) : Bool := l.all (fun c => !(c == '\n'))

/-- After the literal dot of the pattern `.+@.+\..+` there must be one
more wildcard character; the remainder of the string is unmatched (the
pattern is applied with `re.match`, a prefix match). -/
def tailOk : Str → Bool
  | '.' :: c :: _ => !(c == '\n')
  | _ => false

/-- Match `.+\..+` against a suffix (the part after the `@`). -/
def afterAt (l : Str) : Bool :=
  (splitsL l).any (fun pr => !pr.1.isEmpty && noNL pr.1 && tailOk pr.2)

/-- After the first `.+` of the pattern there must be a literal `@`. -/
def headAt : Str → Bool
  | '@' :: rest => afterAt rest
  | _ => false

/-- Model of `re.match(r'.+@.+\..+', s)` as used by
`pandas.str.match`: an anchored prefix match where `.` matches any
character except a newline. -/
def emailValid (l : Str) : Bool :=
  (splitsL l).any (fun pr => !pr.1.isEmpty && noNL pr.1 && headAt pr.2)

/-- First-match association lookup (models `dict` lookup inside
`Series.replace(mapping)`). -/
def lookupA : List (Str × Str) → Str → Option Str
  | [], _ => none
  | (k, c) :: rest, v => if v = k then some c else lookupA rest v

/-- `Series.replace(mapping)` on one cell: a value found in the mapping
is replaced by its image, anything else passes through unchanged. -/
def applyMap (m : List (Str × Str)) (v : Str) : Str :=
  match lookupA m v with
  | some c => c
  | none => v

/-- The gender mapping table of `standardize_gender`. -/
def genderMapping : List (Str × Str) :=
  [(strOf "M", strOf "Male"), (strOf "Male", strOf "Male"),
   (strOf "F", strOf "Female"), (strOf "Female", strOf "Female"),
   (strOf "Other", strOf "Other")]

/-- The department mapping table of `standardize_department`. -/
def deptMapping : List (Str × Str) :=
  [(strOf "HR", strOf "Human Resource"), (strOf "H.R", strOf "Human Resource"),
   (strOf "H.R.", strOf "Human Resource"),
   (strOf "Human Resources", strOf "Human Resource"),
   (strOf "Human Resource", strOf "Human Resource"),
   (strOf "IT", strOf "Information Technology"),
   (strOf "Information Technology", strOf "Information Technology"),
   (strOf "Ops", strOf "Operations"), (strOf "Operations", strOf "Operations"),
   (strOf "Eng", strOf "Engineering"), (strOf "Engineering", strOf "Engineering"),
   (strOf "FIN", strOf "Finance"), (strOf "Finance", strOf "Finance"),
   (strOf "sales", strOf "Sales"), (strOf "Sales", strOf "Sales")]

/-- The currency mapping table of `standardize_currency`. -/
def currencyMapping : List (Str × Str) :=
  [(strOf "ZAR", strOf "ZAR"), (strOf "R", strOf "ZAR"),
   (strOf "$", strOf "USD"), (strOf "GBP", strOf "GBP"),
   (strOf "£", strOf "GBP"), (strOf "Â£", strOf "GBP"),
   (strOf "USD", strOf "USD")]

/-- The country mapping table of `standardize_country`. -/
def countryMapping : List (Str × Str) :=
  [(strOf "south-africa", strOf "South Africa"),
   (strOf "South Africa", strOf "South Africa"),
   (strOf "SA", strOf "South Africa"), (strOf "ZA", strOf "South Africa"),
   (strOf "UK", strOf "United Kingdom"), (strOf "U.K.", strOf "United Kingdom"),
   (strOf "United Kingdom", strOf "United Kingdom"),
   (strOf "USA", strOf "United States"),
   (strOf "United States", strOf "United States")]

/-- The state mapping table of `standardize_state`. -/
def stateMapping : List (Str × Str) :=
  [(strOf "KZN", strOf "KwaZulu-Natal"),
   (strOf "KwaZulu-Natal", strOf "KwaZulu-Natal"),
   (strOf "Western Cape", strOf "Western Cape"),
   (strOf "Gauteng", strOf "Gauteng"), (strOf "Limpopo", strOf "Limpopo")]

/-- Canonical gender values (the range of `genderMapping`). -/
def canonGender : List Str := [strOf "Male", strOf "Female", strOf "Other"]

/-- Canonical department values (the range of `deptMapping`). -/
def canonDept : List Str :=
  [strOf "Human Resource", strOf "Information Technology", strOf "Operations",
   strOf "Engineering", strOf "Finance", strOf "Sales"]

/-- Canonical currency codes (the range of `currencyMapping`). -/
def canonCurrency : List Str := [strOf "ZAR", strOf "USD", strOf "GBP"]

/-- Canonical country names (the range of `countryMapping`). -/
def canonCountry : List Str :=
  [strOf "South Africa", strOf "United Kingdom", strOf "United States"]

/-- Canonical state names (the range of `stateMapping`). -/
def canonState : List Str :=
  [strOf "KwaZulu-Natal", strOf "Western Cape", strOf "Gauteng", strOf "Limpopo"]

/-- A row of the raw input table: text cells may be missing (`none`,
the `NaN` of the tabular library). -/
structure RawRecord where
  employee_id : Int
  first_name : Option Str
  last_name : Option Str
  email : Option Str
  gender : Option Str
  department : Option Str
  currency : Option Str
  country : Option Str
  state : Option Str
  city : Option Str
  salary : Option Str
  manager_id : Option Str
  hire_date : Option Str
  exit_date : Option Str
deriving DecidableEq

/-- A row after `clean_strings`: every text cell is a string
(`astype(str)` has replaced missing cells by the literal "nan"). -/
structure StrRecord where
  employee_id : Int
  first_name : Str
  last_name : Str
  email : Str
  gender : Str
  department : Str
  currency : Str
  country : Str
  state : Str
  city : Str
  salary : Str
  manager_id : Str
  hire_date : Str
  exit_date : Str
deriving DecidableEq

/-- A row after `convert_data_types`: salary and manager_id are numbers
or missing, dates are dates or missing; `email_valid` is the transient
flag added later by `validate_emails` (initially false). -/
structure Record where
  employee_id : Int
  first_name : Str
  last_name : Str
  email : Str
  gender : Str
  department : Str
  currency : Str
  country : Str
  state : Str
  city : Str
  salary : Option Rat
  manager_id : Option Rat
  hire_date : Option Nat
  exit_date : Option Nat
  email_valid : Bool
deriving DecidableEq

/-- STEP 3 on one row: strip every text cell (`astype(str).str.strip()`),
then title-case `first_name`, `last_name`, `city` and lowercase `email`. -/
def cleanRow (r : RawRecord) : StrRecord :=
  { employee_id := r.employee_id
    first_name := pyTitle (stripL (astypeStr r.first_name))
    last_name := pyTitle (stripL (astypeStr r.last_name))
    email := toLowStr (stripL (astypeStr r.email))
    gender := stripL (astypeStr r.gender)
    department := stripL (astypeStr r.department)
    currency := stripL (astypeStr r.currency)
    country := stripL (astypeStr r.country)
    state := stripL (astypeStr r.state)
    city := pyTitle (stripL (astypeStr r.city))
    salary := stripL (astypeStr r.salary)
    manager_id := stripL (astypeStr r.manager_id)
    hire_date := stripL (astypeStr r.hire_date)
    exit_date := stripL (astypeStr r.exit_date) }

/-- STEP 3: `clean_strings`. -/
def clean_strings (t : List RawRecord) : List StrRecord := t.map cleanRow

/-- STEP 4 on one row: salary loses its commas, is stripped and parsed
as a number; manager_id is parsed by the same numeric parser
(`pd.to_numeric`); the two dates are parsed by the date parser.  All
failures coerce to the missing marker. -/
def convRow (r : StrRecord) : Record :=
  { employee_id := r.employee_id
    first_name := r.first_name
    last_name := r.last_name
    email := r.email
    gender := r.gender
    department := r.department
    currency := r.currency
    country := r.country
    state := r.state
    city := r.city
    salary := parseDec (stripL (r.salary.filter (fun c => !(c == ','))))
    manager_id := parseDec r.manager_id
    hire_date := parseDate r.hire_date
    exit_date := parseDate r.exit_date
    email_valid := false }

/-- STEP 4: `convert_data_types`. -/
def convert_data_types (t : List StrRecord) : List Record := t.map convRow

/-- STEP 5: `standardize_gender` (`replace` with the gender mapping,
exact match, no trimming). -/
def standardize_gender (t : List Record) : List Record :=
  t.map (fun r => { r with gender := applyMap genderMapping r.gender })

/-- STEP 6: `standardize_department` (`astype(str).str.strip()` then
`replace` with the department mapping). -/
def standardize_department (t : List Record) : List Record :=
  t.map (fun r => { r with department := applyMap deptMapping (stripL r.department) })

/-- STEP 7: `standardize_currency` (exact `replace`, no trimming). -/
def standardize_currency (t : List Record) : List Record :=
  t.map (fun r => { r with currency := applyMap currencyMapping r.currency })

/-- STEP 8: `standardize_country` (exact `replace`, no trimming). -/
def standardize_country (t : List Record) : List Record :=
  t.map (fun r => { r with country := applyMap countryMapping r.country })

/-- STEP 9: `standardize_state` (exact `replace`, no trimming). -/
def standardize_state (t : List Record) : List Record :=
  t.map (fun r => { r with state := applyMap stateMapping r.state })

/-- Steps 5 to 9 in the order of `main`. -/
def standardize_all (t : List Record) : List Record :=
  standardize_state (standardize_country (standardize_currency
    (standardize_department (standardize_gender t))))

/-- Steps 5 to 9 on one record. -/
def stdRec (r : Record) : Record :=
  { r with gender := applyMap genderMapping r.gender
           department := applyMap deptMapping (stripL r.department)
           currency := applyMap currencyMapping r.currency
           country := applyMap countryMapping r.country
           state := applyMap stateMapping r.state }

/-- STEP 10: `validate_emails` stores the regex verdict in the
transient `email_valid` column; no row is dropped. -/
def validate_emails (t : List Record) : List Record :=
  t.map (fun r => { r with email_valid := emailValid r.email })

/-- A row whose salary is present and negative. -/
def negSal (r : Record) : Bool :=
  match r.salary with
  | some s => decide (s < 0)
  | none => false

/-- `Series.abs` on one row's salary (`NaN` stays `NaN`). -/
def absSal (r : Record) : Record :=
  { r with salary := r.salary.map (fun s => |s|) }

/-- STEP 11: `fix_negative_salaries`; the column-wide `abs` is applied
only when at least one negative salary was found. -/
def fix_negative_salaries (t : List Record) : List Record :=
  if t.any negSal then t.map absSal else t

/-- The mask `df['exit_date'] < df['hire_date']` on one row: true only
when both dates are present (`NaT` comparisons are false). -/
def badDates (r : Record) : Bool :=
  match r.exit_date, r.hire_date with
  | some e, some h => decide (e < h)
  | _, _ => false

/-- `df.loc[mask, 'exit_date'] = NaT` on one row. -/
def fixDates (r : Record) : Record :=
  if badDates r then { r with exit_date := none } else r

/-- STEP 12: `validate_dates`; exit dates earlier than the hire date
are reset to the missing marker (only when at least one such row was
found, which otherwise is a no-op anyway). -/
def validate_dates (t : List Record) : List Record :=
  if t.any badDates then t.map fixDates else t

/-- The guard `df['employee_id'].duplicated().sum() > 0`. -/
def hasDupIds (t : List Record) : Bool :=
  decide (¬ (t.map (fun r => r.employee_id)).Nodup)

/-- `drop_duplicates(subset=['employee_id'], keep='first')`: keep a row
exactly when its `employee_id` has not been seen earlier. -/
def dedupBy (seen : List Int) : List Record → List Record
  | [] => []
  | r :: rs =>
    if r.employee_id ∈ seen then dedupBy seen rs
    else r :: dedupBy (r.employee_id :: seen) rs

/-- STEP 14: `remove_duplicates` (the drop runs only when the duplicate
count is positive). -/
def remove_duplicates (t : List Record) : List Record :=
  if hasDupIds t then dedupBy [] t else t

/-- "No leading or trailing whitespace": the first and last characters,
when they exist, are not whitespace. -/
def noEdge (l : Str) : Prop :=
  (∀ c, l.head? = some c → wsChar c = false) ∧
  (∀ c, l.getLast? = some c → wsChar c = false)

/-- "The first letter of each whitespace-delimited word is capitalized":
the boolean says whether the current position starts a word (beginning
of string or preceded by whitespace); at word starts an alphabetic
character must be uppercase. -/
def titleWordsProp : Bool → Str → Prop
  | _, [] => True
  | atStart, c :: cs =>
    (atStart = true → alphaChar c = true → upChar c = true) ∧
    titleWordsProp (wsChar c) cs

/-- Stated from the spec's words: the email "matches the structure:
some non-empty prefix, then `@`, then some non-empty text, then a
literal `.`, then some non-empty suffix", with the three parts
arbitrary non-empty strings. -/
def specEmailStruct (l : Str) : Prop :=
  ∃ p m q : Str, p ≠ [] ∧ m ≠ [] ∧ q ≠ [] ∧ l = p ++ '@' :: (m ++ '.' :: q)

/-- The exact language of `re.match(r'.+@.+\..+', s)`: a non-empty
newline-free prefix, `@`, a non-empty newline-free middle, a literal
`.`, one more non-newline character, and then an arbitrary (unmatched)
remainder. -/
def emailStructML (l : Str) : Prop :=
  ∃ (p m rest : Str) (c : Char),
    l = p ++ '@' :: (m ++ '.' :: c :: rest) ∧
    p ≠ [] ∧ m ≠ [] ∧ '\n' ∉ p ∧ '\n' ∉ m ∧ c ≠ '\n'

/-- A raw row with every text cell missing. -/
def baseRaw : RawRecord :=
  ⟨0, none, none, none, none, none, none, none, none, none, none, none, none, none⟩

/-- A row of empty strings (used to build concrete test rows). -/
def baseStr : StrRecord :=
  ⟨0, [], [], [], [], [], [], [], [], [], [], [], [], []⟩

/-- A typed row with empty text cells and missing values. -/
def baseRec : Record :=
  ⟨0, [], [], [], [], [], [], [], [], [], none, none, none, none, false⟩

/-- Concrete row: `manager_id` is the numeral "3.7", which is not an
integer numeral but is accepted by the numeric parser. -/
def rowMgr37 : StrRecord := { baseStr with manager_id := strOf "3.7" }

/-- Concrete row: `salary` is the unparseable text "abc". -/
def rowBadSal : StrRecord := { baseStr with salary := strOf "abc" }

/-- Concrete row of the salary scenario: `salary` is "-4,500.00". -/
def rowSalScen : StrRecord := { baseStr with salary := strOf "-4,500.00" }

/-- Concrete row: `exit_date` present, `hire_date` missing. -/
def rowNoHire : Record := { baseRec with exit_date := some 20200101 }

/-- Concrete row: hire date 2020-01-05, exit date 2020-01-10. -/
def rowBothDates : Record :=
  { baseRec with hire_date := some 20200105, exit_date := some 20200110 }

/-- Concrete row with a negative salary. -/
def rowNegSal : Record := { baseRec with salary := some (-5) }

/-- Concrete row whose email contains a newline inside the part before
the `@`. -/
def rowNLEmail : Record := { baseRec with email := strOf "a\nb@c.d" }

/-- Concrete row whose department is the unmapped padded value " X ". -/
def rowDeptPad : Record := { baseRec with department := strOf " X " }

/-- Concrete row whose gender is the padded mapped variant " M ". -/
def rowGenPad : Record := { baseRec with gender := strOf " M " }

/-- Concrete raw row whose gender cell is the padded variant " M ". -/
def rawGenPad : RawRecord := { baseRaw with gender := some (strOf " M ") }

/-- Concrete raw row with a padded lowercase name. -/
def rawName : RawRecord := { baseRaw with first_name := some (strOf " john doe ") }

end EDC

namespace EDC

theorem dedup_sublist (seen : List Int) (t : List Record) :
    List.Sublist (dedupBy seen t) t := by
  induction t generalizing seen with
  | nil => simp [dedupBy]
  | cons r rs ih =>
    simp only [dedupBy]
    split
    · exact List.Sublist.cons r (ih seen)
    · exact List.Sublist.cons₂ r (ih _)

theorem dedup_filter (id : Int) : ∀ (seen : List Int) (t : List Record),
    (dedupBy seen t).filter (fun r => r.employee_id == id) =
      if id ∈ seen then [] else (t.filter (fun r => r.employee_id == id)).take 1 := by
  intro seen t
  induction t generalizing seen with
  | nil => simp [dedupBy]
  | cons r rs ih =>
    simp only [dedupBy]
    by_cases hmem : r.employee_id ∈ seen
    · rw [if_pos hmem, ih seen]
      by_cases hid : id ∈ seen
      · simp [hid]
      · have hne : (r.employee_id == id) = false := by
          simp only [beq_eq_false_iff_ne, ne_eq]
          intro h; exact hid (h ▸ hmem)
        simp [hid, List.filter_cons, hne]
    · rw [if_neg hmem]
      by_cases hid : r.employee_id = id
      · subst hid
        have hnid : r.employee_id ∉ seen := hmem
        rw [List.filter_cons]
        simp only [beq_self_eq_true, if_pos]
        rw [ih (r.employee_id :: seen)]
        simp [hnid, List.filter_cons]
      · have hne : (r.employee_id == id) = false := by simp [hid]
        rw [List.filter_cons]
        simp only [hne, Bool.false_eq_true, if_false]
        rw [ih (r.employee_id :: seen)]
        have : (id ∈ r.employee_id :: seen) ↔ id ∈ seen := by
          simp [List.mem_cons]
          intro h; exact absurd h.symm hid
        by_cases hid2 : id ∈ seen
        · simp [hid2, this]
        · simp only [this, hid2, if_false, List.filter_cons, hne,
            Bool.false_eq_true, if_false]

theorem dedup_nodup : ∀ (seen : List Int) (t : List Record),
    ((dedupBy seen t).map (fun r => r.employee_id)).Nodup ∧
    ∀ x ∈ (dedupBy seen t).map (fun r => r.employee_id), x ∉ seen := by
  intro seen t
  induction t generalizing seen with
  | nil => simp [dedupBy]
  | cons r rs ih =>
    simp only [dedupBy]
    split
    · exact ih seen
    · rename_i hmem
      obtain ⟨h1, h2⟩ := ih (r.employee_id :: seen)
      refine ⟨?_, ?_⟩
      · simp only [List.map_cons, List.nodup_cons]
        exact ⟨fun hx => (h2 _ hx) (List.mem_cons_self _ _), h1⟩
      · intro x hx
        simp only [List.map_cons, List.mem_cons] at hx
        rcases hx with rfl | hx
        · exact hmem
        · exact fun hs => (h2 _ hx) (List.mem_cons_of_mem _ hs)

theorem dedup_eq_self : ∀ (t : List Record) (seen : List Int),
    ((t.map (fun r => r.employee_id)).Nodup) →
    (∀ r ∈ t, r.employee_id ∉ seen) → dedupBy seen t = t := by
  intro t
  induction t with
  | nil => intro seen _ _; rfl
  | cons r rs ih =>
    intro seen hnd hseen
    simp only [List.map_cons, List.nodup_cons] at hnd
    simp only [dedupBy, if_neg (hseen r (List.mem_cons_self _ _))]
    congr 1
    apply ih _ hnd.2
    intro x hx
    simp only [List.mem_cons, not_or]
    refine ⟨fun he => hnd.1 ?_, (hseen x (List.mem_cons_of_mem _ hx))⟩
    exact he ▸ List.mem_map_of_mem _ hx

theorem remove_duplicates_eq (t : List Record) :
    remove_duplicates t = dedupBy [] t := by
  unfold remove_duplicates
  split
  · rfl
  · rename_i h
    have hnd : (t.map (fun r => r.employee_id)).Nodup := by
      by_contra hc
      simp [hasDupIds, hc] at h
    exact (dedup_eq_self t [] hnd (by simp)).symm


/-- C1: after `remove_duplicates` the surviving records have pairwise
distinct `employee_id` values, the output is a subsequence of the input
(relative order preserved), and for every id the surviving records with
that id are exactly the first input record carrying it. -/
theorem remove_duplicates_correct : ∀ t : List Record,
    ((remove_duplicates t).map (fun r => r.employee_id)).Nodup ∧
    List.Sublist (remove_duplicates t) t ∧
    ∀ id : Int, (remove_duplicates t).filter (fun r => r.employee_id == id) =
      (t.filter (fun r => r.employee_id == id)).take 1 := by
  intro t
  rw [remove_duplicates_eq]
  refine ⟨(dedup_nodup [] t).1, dedup_sublist [] t, fun id => ?_⟩
  rw [dedup_filter id [] t]
  simp


theorem map_id_of {α : Type} (f : α → α) (l : List α) (h : ∀ x ∈ l, f x = x) :
    l.map f = l := by
  induction l with
  | nil => rfl
  | cons x xs ih =>
    simp only [List.map_cons, h x (List.mem_cons_self _ _)]
    rw [ih (fun y hy => h y (List.mem_cons_of_mem _ hy))]

theorem validate_dates_eq (t : List Record) : validate_dates t = t.map fixDates := by
  unfold validate_dates
  split
  · rfl
  · rename_i h
    have hall : ∀ r ∈ t, badDates r = false := by
      intro r hr
      by_contra hc
      exact h (List.any_eq_true.mpr ⟨r, hr, by simpa using hc⟩)
    symm
    exact map_id_of _ _ (fun r hr => by simp [fixDates, hall r hr])

/-- C2 counterexample: a record whose `hire_date` is missing and whose
`exit_date` is present survives the pipeline unchanged, and no hire
date exists below its exit date, so "every record whose exit_date is
present satisfies exit_date >= hire_date" fails as stated. -/
theorem validate_dates_missing_hire_cex :
    ¬ (∀ r ∈ remove_duplicates (validate_dates [rowNoHire]), ∀ e : Nat,
        r.exit_date = some e → ∃ h : Nat, r.hire_date = some h ∧ h ≤ e) := by
  intro hclaim
  have hmem : rowNoHire ∈ remove_duplicates (validate_dates [rowNoHire]) := by decide
  obtain ⟨h, hh, -⟩ := hclaim rowNoHire hmem 20200101 rfl
  rw [show rowNoHire.hire_date = none from rfl] at hh
  exact Option.noConfusion hh

/-- C2 amended: `validate_dates` resets `exit_date` to the missing
marker exactly on records where both dates are present and
exit_date < hire_date, and after `validate_dates` followed by
`remove_duplicates` every record with BOTH dates present satisfies
hire_date <= exit_date. -/
theorem validate_dates_amended : ∀ t : List Record,
    validate_dates t = t.map fixDates ∧
    (∀ r : Record,
      (∀ e h : Nat, r.exit_date = some e → r.hire_date = some h → e < h →
        fixDates r = { r with exit_date := none }) ∧
      (badDates r = false → fixDates r = r)) ∧
    ∀ r ∈ remove_duplicates (validate_dates t), ∀ e h : Nat,
      r.exit_date = some e → r.hire_date = some h → h ≤ e := by
  intro t
  refine ⟨validate_dates_eq t, fun r => ⟨?_, ?_⟩, ?_⟩
  · intro e h he hh hlt
    simp [fixDates, badDates, he, hh, hlt]
  · intro hb
    simp [fixDates, hb]
  · intro r hr e h he hh
    rw [remove_duplicates_eq] at hr
    have hr2 : r ∈ validate_dates t := (dedup_sublist [] _).subset hr
    rw [validate_dates_eq t] at hr2
    obtain ⟨r0, hr0, rfl⟩ := List.mem_map.mp hr2
    by_cases hb : badDates r0 = true
    · rw [show fixDates r0 = { r0 with exit_date := none } from by
        simp [fixDates, hb]] at he
      simp at he
    · rw [show fixDates r0 = r0 from by simp [fixDates, hb]] at he hh
      simp [badDates, he, hh] at hb
      omega

/-- C2 witness: the amended theorem applied to a concrete one-row
table with hire date 2020-01-05 and exit date 2020-01-10. -/
theorem validate_dates_amended_witness :
    validate_dates [rowBothDates] = [rowBothDates] ∧ (20200105 : Nat) ≤ 20200110 :=
  ⟨by decide, (validate_dates_amended [rowBothDates]).2.2 rowBothDates (by decide)
    20200110 20200105 rfl rfl⟩


theorem absSal_eq_self (r : Record) (h : negSal r = false) : absSal r = r := by
  rcases r with ⟨a1, a2, a3, a4, a5, a6, a7, a8, a9, a10, sal, a12, a13, a14, a15⟩
  cases sal with
  | none => simp [absSal]
  | some s =>
    simp only [negSal, decide_eq_false_iff_not, not_lt] at h
    simp [absSal, abs_of_nonneg h]

theorem fix_negative_salaries_eq (t : List Record) :
    fix_negative_salaries t = t.map absSal := by
  unfold fix_negative_salaries
  split
  · rfl
  · rename_i h
    have hall : ∀ r ∈ t, negSal r = false := by
      intro r hr
      by_contra hc
      exact h (List.any_eq_true.mpr ⟨r, hr, by simpa using hc⟩)
    symm
    exact map_id_of _ _ (fun r hr => absSal_eq_self r (hall r hr))

/-- C3: `fix_negative_salaries` maps each present salary to its
absolute value (negative salaries are negated, non-negative ones are
unchanged), afterwards every present salary is non-negative, and the
scenario row with salary "-4,500.00" comes out of `convert_data_types`
plus `fix_negative_salaries` with salary 4500. -/
theorem fix_negative_salaries_spec : ∀ t : List Record,
    fix_negative_salaries t = t.map absSal ∧
    (∀ r : Record, ∀ s : Rat, r.salary = some s →
      (s < 0 → (absSal r).salary = some (-s)) ∧
      (0 ≤ s → (absSal r).salary = some s)) ∧
    (∀ r ∈ fix_negative_salaries t, ∀ s : Rat, r.salary = some s → 0 ≤ s) ∧
    (fix_negative_salaries (convert_data_types [rowSalScen])).map (fun r => r.salary) =
      [some (4500 : Rat)] := by
  intro t
  refine ⟨fix_negative_salaries_eq t, ?_, ?_, by decide⟩
  · intro r s hs
    exact ⟨fun hlt => by simp [absSal, hs, abs_of_neg hlt],
      fun hge => by simp [absSal, hs, abs_of_nonneg hge]⟩
  · intro r hr s hs
    rw [fix_negative_salaries_eq t] at hr
    obtain ⟨r0, _, rfl⟩ := List.mem_map.mp hr
    simp only [absSal] at hs
    cases h0 : r0.salary with
    | none => simp [h0] at hs
    | some s0 =>
      rw [h0] at hs
      have habs : |s0| = s := by simpa using hs
      exact habs ▸ abs_nonneg s0

/-- C3 witness: the theorem applied to a concrete one-row table with
salary -5. -/
theorem fix_negative_salaries_spec_witness :
    (fix_negative_salaries [rowNegSal]).map (fun r => r.salary) = [some (5 : Rat)] ∧
    (0 : Rat) ≤ 5 :=
  ⟨by decide, (fix_negative_salaries_spec [rowNegSal]).2.2.1 (absSal rowNegSal)
    (by decide) 5 (by decide)⟩


theorem mem_splitsL : ∀ {l p q : Str}, (p, q) ∈ splitsL l ↔ l = p ++ q := by
  intro l
  induction l with
  | nil =>
    intro p q
    simp only [splitsL, List.mem_singleton, Prod.mk.injEq]
    constructor
    · rintro ⟨rfl, rfl⟩; rfl
    · intro h
      obtain ⟨h1, h2⟩ := (List.append_eq_nil).mp h.symm
      exact ⟨h1, h2⟩
  | cons c cs ih =>
    intro p q
    simp only [splitsL, List.mem_cons, List.mem_map, Prod.mk.injEq]
    constructor
    · rintro (⟨rfl, rfl⟩ | ⟨⟨p1, q1⟩, hmem, hp, hq⟩)
      · rfl
      · subst hp; subst hq
        simpa using congrArg (c :: ·) (ih.mp hmem)
    · intro h
      cases p with
      | nil =>
        left
        simp only [List.nil_append] at h
        exact ⟨rfl, h.symm⟩
      | cons hd tl =>
        injection h with h1 h2
        subst h1
        right
        exact ⟨(tl, q), ih.mpr h2, rfl, rfl⟩

theorem noNL_iff (l : Str) : noNL l = true ↔ '\n' ∉ l := by
  unfold noNL
  rw [List.all_eq_true]
  constructor
  · intro h hmem
    simpa using h '\n' hmem
  · intro h c hc
    simpa using fun hh : c = '\n' => h (hh ▸ hc)

theorem not_isEmpty_of_ne {l : Str} (h : l ≠ []) : (!l.isEmpty) = true := by
  cases l with
  | nil => exact absurd rfl h
  | cons _ _ => rfl

theorem headAt_at (rest : Str) : headAt ('@' :: rest) = afterAt rest := rfl

theorem tailOk_dot (c : Char) (rest : Str) : tailOk ('.' :: c :: rest) = !(c == '\n') := rfl

theorem emailValid_iff (l : Str) : emailValid l = true ↔ emailStructML l := by
  unfold emailValid emailStructML
  rw [List.any_eq_true]
  constructor
  · rintro ⟨⟨p, rest⟩, hmem, hcond⟩
    rw [mem_splitsL] at hmem
    simp only [Bool.and_eq_true] at hcond
    obtain ⟨⟨hp1, hp2⟩, hp3⟩ := hcond
    cases rest with
    | nil => simp [headAt] at hp3
    | cons c0 rest2 =>
      unfold headAt at hp3
      split at hp3
      case _ r2 heq =>
        injection heq with hc0 hr2
        subst hc0
        unfold afterAt at hp3
        rw [List.any_eq_true] at hp3
        obtain ⟨⟨m, rest3⟩, hmem2, hcond2⟩ := hp3
        rw [mem_splitsL] at hmem2
        simp only [Bool.and_eq_true] at hcond2
        obtain ⟨⟨hm1, hm2⟩, hm3⟩ := hcond2
        cases rest3 with
        | nil => simp [tailOk] at hm3
        | cons d0 rest4 =>
          cases rest4 with
          | nil => simp [tailOk] at hm3
          | cons e0 rest5 =>
            unfold tailOk at hm3
            split at hm3
            case _ cc rr heq2 =>
              injection heq2 with hd0 hrr
              subst hd0
              injection hrr with he0 hr5
              refine ⟨p, m, rest5, e0, ?_, ?_, ?_, ?_, ?_, ?_⟩
              · rw [hmem, hr2, hmem2]
              · intro hc; rw [hc] at hp1; simp at hp1
              · intro hc; rw [hc] at hm1; simp at hm1
              · exact (noNL_iff p).mp hp2
              · exact (noNL_iff m).mp hm2
              · rw [he0]; simpa using hm3
            case _ => simp at hm3
      case _ => simp at hp3
  · rintro ⟨p, m, rest, c, rfl, hp, hm, hnp, hnm, hc⟩
    refine ⟨(p, '@' :: (m ++ '.' :: c :: rest)), mem_splitsL.mpr rfl, ?_⟩
    simp only [Bool.and_eq_true]
    refine ⟨⟨not_isEmpty_of_ne hp, (noNL_iff p).mpr hnp⟩, ?_⟩
    show headAt ('@' :: (m ++ '.' :: c :: rest)) = true
    rw [headAt_at]
    unfold afterAt
    rw [List.any_eq_true]
    refine ⟨(m, '.' :: c :: rest), mem_splitsL.mpr rfl, ?_⟩
    simp only [Bool.and_eq_true]
    refine ⟨⟨not_isEmpty_of_ne hm, (noNL_iff m).mpr hnm⟩, ?_⟩
    show tailOk ('.' :: c :: rest) = true
    rw [tailOk_dot]
    simpa using hc


/-- C4 counterexample: for the email "a\nb@c.d" the spec's structure
(non-empty prefix, `@`, non-empty text, `.`, non-empty suffix) holds,
but `re.match(r'.+@.+\..+')` fails because the `.` wildcard does not
match the newline, so `email_valid` is false: the claimed equivalence
is refuted. -/
theorem validate_emails_iff_cex :
    ¬ (∀ r ∈ validate_emails [rowNLEmail],
        (r.email_valid = true ↔ specEmailStruct r.email)) := by
  intro hclaim
  have hmem : ({ rowNLEmail with email_valid := emailValid rowNLEmail.email } : Record)
      ∈ validate_emails [rowNLEmail] := by
    simp [validate_emails]
  have hiff := hclaim _ hmem
  have hstruct : specEmailStruct
      ({ rowNLEmail with email_valid := emailValid rowNLEmail.email } : Record).email := by
    exact ⟨strOf "a\nb", ['c'], ['d'], by decide, by decide, by decide, by decide⟩
  exact absurd (hiff.mpr hstruct) (by decide)

/-- C4 amended: `validate_emails` only sets the transient flag and
retains every row, and `email_valid` is true exactly when the email has
the form: non-empty newline-free prefix, `@`, non-empty newline-free
middle, literal `.`, a non-newline character, and an arbitrary
remainder. -/
theorem validate_emails_amended : ∀ t : List Record,
    validate_emails t = t.map (fun r => { r with email_valid := emailValid r.email }) ∧
    (∀ s : Str, emailValid s = true ↔ emailStructML s) ∧
    (validate_emails t).length = t.length ∧
    ∀ r ∈ t, ({ r with email_valid := emailValid r.email } : Record) ∈ validate_emails t := by
  intro t
  refine ⟨rfl, emailValid_iff, by simp [validate_emails], ?_⟩
  intro r hr
  exact List.mem_map_of_mem _ hr

/-- C4 witness: the amended equivalence applied to the concrete email
"a@b.c". -/
theorem validate_emails_amended_witness : emailValid (strOf "a@b.c") = true :=
  ((validate_emails_amended []).2.1 (strOf "a@b.c")).mpr
    ⟨['a'], ['b'], [], 'c', by decide, by decide, by decide, by decide, by decide, by decide⟩

end EDC

namespace EDC

/-- C5 counterexample: the `manager_id` value "3.7" does not parse as
an integer, yet `convert_data_types` does not set it to the missing
marker: `pd.to_numeric` keeps it as the number 3.7. -/
theorem convert_manager_int_cex :
    ¬ (∀ r : StrRecord, parseIntStr r.manager_id = none →
        (convert_data_types [r]).map (fun x => x.manager_id) = [none]) := by
  intro h
  exact absurd (h rowMgr37 (by decide)) (by decide)

/-- C5 amended: `convert_data_types` is a total per-row map that
never aborts; salary is parsed after comma removal and stripping,
`manager_id` is parsed by the same decimal parser as salary (not an
integer parser), dates by the date parser, and every parse failure
becomes the missing marker. -/
theorem convert_data_types_amended : ∀ t : List StrRecord,
    convert_data_types t = t.map convRow ∧
    (convert_data_types t).length = t.length ∧
    ∀ r : StrRecord,
      (convRow r).salary = parseDec (stripL (r.salary.filter (fun c => !(c == ',')))) ∧
      (parseDec (stripL (r.salary.filter (fun c => !(c == ',')))) = none →
        (convRow r).salary = none) ∧
      (convRow r).manager_id = parseDec r.manager_id ∧
      (parseDec r.manager_id = none → (convRow r).manager_id = none) ∧
      (convRow r).hire_date = parseDate r.hire_date ∧
      (parseDate r.hire_date = none → (convRow r).hire_date = none) ∧
      (convRow r).exit_date = parseDate r.exit_date ∧
      (parseDate r.exit_date = none → (convRow r).exit_date = none) := by
  intro t
  refine ⟨rfl, by simp [convert_data_types], ?_⟩
  intro r
  exact ⟨rfl, fun h => h, rfl, fun h => h, rfl, fun h => h, rfl, fun h => h⟩

/-- C5 witness: the unparseable salary "abc" coerces to the missing
marker. -/
theorem convert_data_types_amended_witness : (convRow rowBadSal).salary = none :=
  ((convert_data_types_amended []).2.2 rowBadSal).2.1 (by decide)

theorem lookup_snd_mem {m : List (Str × Str)} {v c : Str}
    (h : lookupA m v = some c) : c ∈ m.map Prod.snd := by
  induction m with
  | nil => simp [lookupA] at h
  | cons kv rest ih =>
    cases kv with
    | mk k c0 =>
      unfold lookupA at h
      split at h
      · injection h with h1
        subst h1
        simp
      · simp only [List.map_cons, List.mem_cons]
        exact Or.inr (ih h)

theorem gender_canon {v c : Str} (h : lookupA genderMapping v = some c) :
    c ∈ canonGender := by
  have hall : ∀ x ∈ genderMapping.map Prod.snd, x ∈ canonGender := by decide
  exact hall _ (lookup_snd_mem h)

theorem dept_canon {v c : Str} (h : lookupA deptMapping v = some c) :
    c ∈ canonDept := by
  have hall : ∀ x ∈ deptMapping.map Prod.snd, x ∈ canonDept := by decide
  exact hall _ (lookup_snd_mem h)

theorem currency_canon {v c : Str} (h : lookupA currencyMapping v = some c) :
    c ∈ canonCurrency := by
  have hall : ∀ x ∈ currencyMapping.map Prod.snd, x ∈ canonCurrency := by decide
  exact hall _ (lookup_snd_mem h)

theorem country_canon {v c : Str} (h : lookupA countryMapping v = some c) :
    c ∈ canonCountry := by
  have hall : ∀ x ∈ countryMapping.map Prod.snd, x ∈ canonCountry := by decide
  exact hall _ (lookup_snd_mem h)

theorem state_canon {v c : Str} (h : lookupA stateMapping v = some c) :
    c ∈ canonState := by
  have hall : ∀ x ∈ stateMapping.map Prod.snd, x ∈ canonState := by decide
  exact hall _ (lookup_snd_mem h)

theorem standardize_all_eq (t : List Record) : standardize_all t = t.map stdRec := by
  simp only [standardize_all, standardize_gender, standardize_department,
    standardize_currency, standardize_country, standardize_state, List.map_map]
  rfl


/-- C6 counterexample: the department value " X " is absent from the
mapping table, yet `standardize_department` does not leave it
unchanged: the stage trims it to "X" first. -/
theorem standardize_unmapped_cex :
    ¬ (∀ r : Record, lookupA deptMapping r.department = none →
        (standardize_department [r]).map (fun x => x.department) = [r.department]) := by
  intro h
  exact absurd (h rowDeptPad (by decide)) (by decide)

/-- C6 amended: gender, currency, country and state standardizers map
table values to their canonical string and leave rows with unmapped
values entirely unchanged; the department standardizer first trims the
value, then maps it, so an unmapped department becomes its trimmed
value; afterwards every categorical value is canonical or absent from
its mapping table. -/
theorem standardize_amended : ∀ t : List Record,
    (∀ r : Record,
      (lookupA genderMapping r.gender = none → standardize_gender [r] = [r]) ∧
      (∀ c, lookupA genderMapping r.gender = some c →
        standardize_gender [r] = [{ r with gender := c }]) ∧
      (lookupA currencyMapping r.currency = none → standardize_currency [r] = [r]) ∧
      (∀ c, lookupA currencyMapping r.currency = some c →
        standardize_currency [r] = [{ r with currency := c }]) ∧
      (lookupA countryMapping r.country = none → standardize_country [r] = [r]) ∧
      (∀ c, lookupA countryMapping r.country = some c →
        standardize_country [r] = [{ r with country := c }]) ∧
      (lookupA stateMapping r.state = none → standardize_state [r] = [r]) ∧
      (∀ c, lookupA stateMapping r.state = some c →
        standardize_state [r] = [{ r with state := c }]) ∧
      (lookupA deptMapping (stripL r.department) = none →
        standardize_department [r] = [{ r with department := stripL r.department }]) ∧
      (∀ c, lookupA deptMapping (stripL r.department) = some c →
        standardize_department [r] = [{ r with department := c }])) ∧
    ∀ r ∈ standardize_all t,
      (r.gender ∈ canonGender ∨ lookupA genderMapping r.gender = none) ∧
      (r.department ∈ canonDept ∨ lookupA deptMapping r.department = none) ∧
      (r.currency ∈ canonCurrency ∨ lookupA currencyMapping r.currency = none) ∧
      (r.country ∈ canonCountry ∨ lookupA countryMapping r.country = none) ∧
      (r.state ∈ canonState ∨ lookupA stateMapping r.state = none) := by
  intro t
  constructor
  · intro r
    refine ⟨?_, ?_, ?_, ?_, ?_, ?_, ?_, ?_, ?_, ?_⟩ <;>
      first
        | (intro h; simp [standardize_gender, standardize_currency,
            standardize_country, standardize_state, standardize_department,
            applyMap, h])
        | (intro c h; simp [standardize_gender, standardize_currency,
            standardize_country, standardize_state, standardize_department,
            applyMap, h])
  · intro r hr
    rw [standardize_all_eq] at hr
    obtain ⟨r0, _, rfl⟩ := List.mem_map.mp hr
    refine ⟨?_, ?_, ?_, ?_, ?_⟩
    · show applyMap genderMapping r0.gender ∈ canonGender ∨
        lookupA genderMapping (applyMap genderMapping r0.gender) = none
      unfold applyMap
      cases hl : lookupA genderMapping r0.gender with
      | none => right; rw [hl]
      | some c => left; exact gender_canon hl
    · show applyMap deptMapping (stripL r0.department) ∈ canonDept ∨
        lookupA deptMapping (applyMap deptMapping (stripL r0.department)) = none
      unfold applyMap
      cases hl : lookupA deptMapping (stripL r0.department) with
      | none => right; rw [hl]
      | some c => left; exact dept_canon hl
    · show applyMap currencyMapping r0.currency ∈ canonCurrency ∨
        lookupA currencyMapping (applyMap currencyMapping r0.currency) = none
      unfold applyMap
      cases hl : lookupA currencyMapping r0.currency with
      | none => right; rw [hl]
      | some c => left; exact currency_canon hl
    · show applyMap countryMapping r0.country ∈ canonCountry ∨
        lookupA countryMapping (applyMap countryMapping r0.country) = none
      unfold applyMap
      cases hl : lookupA countryMapping r0.country with
      | none => right; rw [hl]
      | some c => left; exact country_canon hl
    · show applyMap stateMapping r0.state ∈ canonState ∨
        lookupA stateMapping (applyMap stateMapping r0.state) = none
      unfold applyMap
      cases hl : lookupA stateMapping r0.state with
      | none => right; rw [hl]
      | some c => left; exact state_canon hl

/-- C6 witness: a row with an unmapped gender cell passes through
`standardize_gender` unchanged. -/
theorem standardize_amended_witness :
    standardize_gender [rowDeptPad] = [rowDeptPad] :=
  ((standardize_amended []).1 rowDeptPad).1 (by decide)


theorem toNat_ofNat_small (n : Nat) (h : n < 55296) : (Char.ofNat n).toNat = n := by
  unfold Char.ofNat
  rw [dif_pos (Or.inl h : Nat.isValidChar n)]
  simp [Char.ofNatAux, Char.toNat, UInt32.toNat, BitVec.toNat_ofNatLt]

theorem lowChar_bounds {c : Char} (h : lowChar c = true) :
    97 ≤ c.toNat ∧ c.toNat ≤ 122 := by
  simpa [lowChar, Bool.and_eq_true, decide_eq_true_eq] using h

theorem upChar_bounds {c : Char} (h : upChar c = true) :
    65 ≤ c.toNat ∧ c.toNat ≤ 90 := by
  simpa [upChar, Bool.and_eq_true, decide_eq_true_eq] using h

theorem wsCharN_false_of_alpha {n : Nat} (h1 : 65 ≤ n) (h2 : n ≤ 122) :
    wsCharN n = false := by
  simp only [wsCharN, Bool.or_eq_false_iff, beq_eq_false_iff_ne, ne_eq]
  omega

theorem wsChar_toUp (c : Char) : wsChar (toUp c) = wsChar c := by
  unfold toUp
  split
  · rename_i h
    obtain ⟨h1, h2⟩ := lowChar_bounds h
    unfold wsChar
    rw [toNat_ofNat_small _ (by omega)]
    rw [wsCharN_false_of_alpha (n := c.toNat - 32) (by omega) (by omega)]
    rw [wsCharN_false_of_alpha (by omega) (by omega)]
  · rfl

theorem wsChar_toLow (c : Char) : wsChar (toLow c) = wsChar c := by
  unfold toLow
  split
  · rename_i h
    obtain ⟨h1, h2⟩ := upChar_bounds h
    unfold wsChar
    rw [toNat_ofNat_small _ (by omega)]
    rw [wsCharN_false_of_alpha (n := c.toNat + 32) (by omega) (by omega)]
    rw [wsCharN_false_of_alpha (by omega) (by omega)]
  · rfl

theorem alphaChar_not_ws {c : Char} (h : alphaChar c = true) : wsChar c = false := by
  unfold alphaChar at h
  rcases Bool.or_eq_true_iff.mp h with h | h
  · obtain ⟨h1, h2⟩ := upChar_bounds h
    exact wsCharN_false_of_alpha h1 (by omega)
  · obtain ⟨h1, h2⟩ := lowChar_bounds h
    exact wsCharN_false_of_alpha (by omega) h2

theorem upChar_toUp {c : Char} (h : alphaChar c = true) : upChar (toUp c) = true := by
  unfold toUp
  by_cases hlc : lowChar c = true
  · obtain ⟨h1, h2⟩ := lowChar_bounds hlc
    rw [if_pos hlc]
    simp only [upChar, toNat_ofNat_small _ (by omega : c.toNat - 32 < 55296),
      Bool.and_eq_true, decide_eq_true_eq]
    omega
  · rw [if_neg hlc]
    unfold alphaChar at h
    rcases Bool.or_eq_true_iff.mp h with h | h
    · exact h
    · exact absurd h hlc

theorem upChar_toLow_false (c : Char) : upChar (toLow c) = false := by
  unfold toLow
  by_cases huc : upChar c = true
  · obtain ⟨h1, h2⟩ := upChar_bounds huc
    rw [if_pos huc]
    have hv := toNat_ofNat_small (c.toNat + 32) (by omega)
    simp only [upChar, hv, Bool.and_eq_true, decide_eq_true_eq, Bool.eq_false_iff, ne_eq]
    intro hcon
    obtain ⟨h3, h4⟩ := hcon
    omega
  · rw [if_neg huc]
    exact Bool.eq_false_iff.mpr huc


theorem head?_dropWhile_not (p : Char → Bool) (l : Str) :
    ∀ c, (l.dropWhile p).head? = some c → p c = false := by
  induction l with
  | nil => intro c hc; simp at hc
  | cons a as ih =>
    intro c hc
    by_cases h : p a = true
    · rw [List.dropWhile_cons, if_pos h] at hc
      exact ih c hc
    · rw [List.dropWhile_cons, if_neg h] at hc
      injection hc with h1
      subst h1
      exact Bool.eq_false_iff.mpr h

theorem getLast?_cons_ne (a : Char) (l : Str) (h : l ≠ []) :
    (a :: l).getLast? = l.getLast? := by
  cases l with
  | nil => exact absurd rfl h
  | cons b bs => exact List.getLast?_cons_cons

theorem getLast?_dropWhile_ne (p : Char → Bool) (l : Str)
    (h : l.dropWhile p ≠ []) : (l.dropWhile p).getLast? = l.getLast? := by
  induction l with
  | nil => simp at h
  | cons a as ih =>
    by_cases hp : p a = true
    · rw [List.dropWhile_cons, if_pos hp] at h ⊢
      have has : as ≠ [] := by
        intro hnil
        rw [hnil] at h
        simp at h
      rw [ih h, getLast?_cons_ne a as has]
    · rw [List.dropWhile_cons, if_neg hp]

theorem noEdge_stripL (l : Str) : noEdge (stripL l) := by
  constructor
  · intro c hc
    rw [stripL, List.head?_reverse] at hc
    by_cases hn : ((l.dropWhile wsChar).reverse).dropWhile wsChar = []
    · rw [hn] at hc; simp at hc
    · rw [getLast?_dropWhile_ne _ _ hn, List.getLast?_reverse] at hc
      exact head?_dropWhile_not wsChar l c hc
  · intro c hc
    rw [stripL, List.getLast?_reverse] at hc
    exact head?_dropWhile_not wsChar _ c hc

theorem stripL_eq_self (l : Str) (h : noEdge l) : stripL l = l := by
  obtain ⟨h1, h2⟩ := h
  have e1 : l.dropWhile wsChar = l := by
    cases l with
    | nil => rfl
    | cons a as =>
      rw [List.dropWhile_cons, if_neg]
      rw [h1 a rfl]
      simp
  have e2 : l.reverse.dropWhile wsChar = l.reverse := by
    cases hrev : l.reverse with
    | nil => rfl
    | cons a as =>
      rw [List.dropWhile_cons, if_neg]
      have : l.getLast? = some a := by
        rw [← List.head?_reverse, hrev]
        rfl
      rw [h2 a this]
      simp
  rw [stripL, e1, e2, List.reverse_reverse]

theorem stripL_idem (l : Str) : stripL (stripL l) = stripL l :=
  stripL_eq_self _ (noEdge_stripL l)


theorem gender_selfmap : ∀ x ∈ genderMapping.map Prod.snd,
    lookupA genderMapping x = some x := by decide

theorem dept_selfmap : ∀ x ∈ deptMapping.map Prod.snd,
    lookupA deptMapping x = some x := by decide

theorem currency_selfmap : ∀ x ∈ currencyMapping.map Prod.snd,
    lookupA currencyMapping x = some x := by decide

theorem country_selfmap : ∀ x ∈ countryMapping.map Prod.snd,
    lookupA countryMapping x = some x := by decide

theorem state_selfmap : ∀ x ∈ stateMapping.map Prod.snd,
    lookupA stateMapping x = some x := by decide

theorem dept_snd_stripped : ∀ x ∈ deptMapping.map Prod.snd, stripL x = x := by decide

theorem applyMap_self (m : List (Str × Str))
    (hself : ∀ x ∈ m.map Prod.snd, lookupA m x = some x) (v : Str) :
    applyMap m (applyMap m v) = applyMap m v := by
  cases hl : lookupA m v with
  | none =>
    have h1 : applyMap m v = v := by unfold applyMap; rw [hl]
    rw [h1]
    exact h1
  | some c =>
    have h1 : applyMap m v = c := by unfold applyMap; rw [hl]
    rw [h1]
    have h2 := hself c (lookup_snd_mem hl)
    unfold applyMap
    rw [h2]

theorem dept_apply_idem (v : Str) :
    applyMap deptMapping (stripL (applyMap deptMapping (stripL v))) =
      applyMap deptMapping (stripL v) := by
  cases hl : lookupA deptMapping (stripL v) with
  | none =>
    have h1 : applyMap deptMapping (stripL v) = stripL v := by unfold applyMap; rw [hl]
    rw [h1, stripL_idem]
    exact h1
  | some c =>
    have h1 : applyMap deptMapping (stripL v) = c := by unfold applyMap; rw [hl]
    rw [h1, dept_snd_stripped c (lookup_snd_mem hl)]
    have h2 := dept_selfmap c (lookup_snd_mem hl)
    unfold applyMap
    rw [h2]

theorem stdRec_idem (r : Record) : stdRec (stdRec r) = stdRec r := by
  rcases r with ⟨eid, fn, ln, em, ge, de, cu, co, st, ci, sa, ma, hd, ed, ev⟩
  simp only [stdRec, Record.mk.injEq, and_true, true_and]
  refine ⟨?_, ?_, ?_, ?_, ?_⟩
  · exact applyMap_self _ gender_selfmap ge
  · exact dept_apply_idem de
  · exact applyMap_self _ currency_selfmap cu
  · exact applyMap_self _ country_selfmap co
  · exact applyMap_self _ state_selfmap st

/-- C7: the five category standardizers applied twice give the same
table as applied once (each mapping table sends canonical values to
themselves). -/
theorem standardize_all_idempotent : ∀ t : List Record,
    standardize_all (standardize_all t) = standardize_all t := by
  intro t
  rw [standardize_all_eq, standardize_all_eq, List.map_map]
  induction t with
  | nil => rfl
  | cons r rs ih =>
    simp only [List.map_cons, Function.comp_apply, stdRec_idem r]
    rw [ih]


/-- C8 counterexample: the gender value " M " equals the mapped
variant "M" up to surrounding whitespace, yet `standardize_gender`
leaves it unchanged (no trimming before the exact-match replace), so it
does not become "Male". -/
theorem standardize_trim_cex :
    ¬ (∀ r : Record, stripL r.gender = strOf "M" →
        (standardize_gender [r]).map (fun x => x.gender) = [strOf "Male"]) := by
  intro h
  exact absurd (h rowGenPad (by decide)) (by decide)

/-- C8 amended: only `standardize_department` trims before its
exact-match lookup; the other four standardizers match exactly, and map
a whitespace-padded variant to its canonical string only after the
StringNormalizer's trim, i.e. along the pipeline
`clean_strings` then `convert_data_types` then the standardizer. -/
theorem standardize_trim_amended :
    (∀ (r : Record) (c : Str), lookupA deptMapping (stripL r.department) = some c →
      (standardize_department [r]).map (fun x => x.department) = [c]) ∧
    (∀ (r : RawRecord) (c : Str),
      lookupA genderMapping (stripL (astypeStr r.gender)) = some c →
      (standardize_gender (convert_data_types (clean_strings [r]))).map
        (fun x => x.gender) = [c]) ∧
    (∀ (r : RawRecord) (c : Str),
      lookupA currencyMapping (stripL (astypeStr r.currency)) = some c →
      (standardize_currency (convert_data_types (clean_strings [r]))).map
        (fun x => x.currency) = [c]) ∧
    (∀ (r : RawRecord) (c : Str),
      lookupA countryMapping (stripL (astypeStr r.country)) = some c →
      (standardize_country (convert_data_types (clean_strings [r]))).map
        (fun x => x.country) = [c]) ∧
    (∀ (r : RawRecord) (c : Str),
      lookupA stateMapping (stripL (astypeStr r.state)) = some c →
      (standardize_state (convert_data_types (clean_strings [r]))).map
        (fun x => x.state) = [c]) := by
  refine ⟨?_, ?_, ?_, ?_, ?_⟩
  · intro r c h
    simp [standardize_department, applyMap, h]
  · intro r c h
    simp [clean_strings, convert_data_types, standardize_gender, cleanRow, convRow,
      applyMap, h]
  · intro r c h
    simp [clean_strings, convert_data_types, standardize_currency, cleanRow, convRow,
      applyMap, h]
  · intro r c h
    simp [clean_strings, convert_data_types, standardize_country, cleanRow, convRow,
      applyMap, h]
  · intro r c h
    simp [clean_strings, convert_data_types, standardize_state, cleanRow, convRow,
      applyMap, h]

/-- C8 witness: the raw gender cell " M " becomes "Male" through
`clean_strings`, `convert_data_types` and `standardize_gender`. -/
theorem standardize_trim_amended_witness :
    (standardize_gender (convert_data_types (clean_strings [rawGenPad]))).map
      (fun x => x.gender) = [strOf "Male"] :=
  standardize_trim_amended.2.1 rawGenPad (strOf "Male") (by decide)


theorem pyTitleAux_ne_nil (b : Bool) (l : Str) (h : l ≠ []) : pyTitleAux b l ≠ [] := by
  cases l with
  | nil => exact absurd rfl h
  | cons c cs =>
    unfold pyTitleAux
    split <;> simp

theorem head?_ws_pyTitleAux (b : Bool) (l : Str) :
    ((pyTitleAux b l).head?).map wsChar = (l.head?).map wsChar := by
  cases l with
  | nil => rfl
  | cons c cs =>
    unfold pyTitleAux
    by_cases ha : alphaChar c = true
    · rw [if_pos ha]
      show some (wsChar (if b then toLow c else toUp c)) = some (wsChar c)
      by_cases hb : b = true
      · rw [if_pos hb, wsChar_toLow]
      · rw [if_neg hb, wsChar_toUp]
    · rw [if_neg ha]
      rfl

theorem getLast?_ws_pyTitleAux (b : Bool) (l : Str) :
    ((pyTitleAux b l).getLast?).map wsChar = (l.getLast?).map wsChar := by
  induction l generalizing b with
  | nil => rfl
  | cons c cs ih =>
    cases cs with
    | nil =>
      unfold pyTitleAux
      by_cases ha : alphaChar c = true
      · rw [if_pos ha]
        show some (wsChar (if b then toLow c else toUp c)) = some (wsChar c)
        by_cases hb : b = true
        · rw [if_pos hb, wsChar_toLow]
        · rw [if_neg hb, wsChar_toUp]
      · rw [if_neg ha]
        rfl
    | cons d ds =>
      unfold pyTitleAux
      by_cases ha : alphaChar c = true
      · rw [if_pos ha]
        rw [getLast?_cons_ne _ _ (pyTitleAux_ne_nil true (d :: ds) (by simp))]
        rw [ih true]
        rw [getLast?_cons_ne c (d :: ds) (by simp)]
      · rw [if_neg ha]
        rw [getLast?_cons_ne _ _ (pyTitleAux_ne_nil false (d :: ds) (by simp))]
        rw [ih false]
        rw [getLast?_cons_ne c (d :: ds) (by simp)]

theorem noEdge_pyTitle (l : Str) (h : noEdge l) : noEdge (pyTitle l) := by
  obtain ⟨h1, h2⟩ := h
  constructor
  · intro c hc
    have hm := head?_ws_pyTitleAux false l
    rw [show pyTitleAux false l = pyTitle l from rfl] at hm
    rw [hc] at hm
    cases hl : l.head? with
    | none => rw [hl] at hm; simp at hm
    | some a =>
      rw [hl] at hm
      have h3 : wsChar c = wsChar a := by simpa using hm
      rw [h3]
      exact h1 a hl
  · intro c hc
    have hm := getLast?_ws_pyTitleAux false l
    rw [show pyTitleAux false l = pyTitle l from rfl] at hm
    rw [hc] at hm
    cases hl : l.getLast? with
    | none => rw [hl] at hm; simp at hm
    | some a =>
      rw [hl] at hm
      have h3 : wsChar c = wsChar a := by simpa using hm
      rw [h3]
      exact h2 a hl

theorem noEdge_toLowStr (l : Str) (h : noEdge l) : noEdge (toLowStr l) := by
  obtain ⟨h1, h2⟩ := h
  constructor
  · intro c hc
    rw [toLowStr, List.head?_map] at hc
    cases hl : l.head? with
    | none => rw [hl] at hc; simp at hc
    | some a =>
      rw [hl] at hc
      have h3 : toLow a = c := by simpa using hc
      rw [← h3, wsChar_toLow]
      exact h1 a hl
  · intro c hc
    rw [toLowStr, List.getLast?_map] at hc
    cases hl : l.getLast? with
    | none => rw [hl] at hc; simp at hc
    | some a =>
      rw [hl] at hc
      have h3 : toLow a = c := by simpa using hc
      rw [← h3, wsChar_toLow]
      exact h2 a hl

theorem titleWordsProp_pyTitleAux : ∀ (l : Str) (p b : Bool),
    (b = true → p = false) → titleWordsProp b (pyTitleAux p l) := by
  intro l
  induction l with
  | nil => intro p b _; trivial
  | cons c cs ih =>
    intro p b hb
    unfold pyTitleAux
    by_cases ha : alphaChar c = true
    · rw [if_pos ha]
      refine ⟨?_, ?_⟩
      · intro hbt _
        rw [hb hbt, if_neg (by simp : ¬ (false = true))]
        exact upChar_toUp ha
      · have hws : wsChar (if p = true then toLow c else toUp c) = false := by
          by_cases hp : p = true
          · rw [if_pos hp, wsChar_toLow]
            exact alphaChar_not_ws ha
          · rw [if_neg hp, wsChar_toUp]
            exact alphaChar_not_ws ha
        rw [hws]
        exact ih true false (fun h => absurd h (by simp))
    · rw [if_neg ha]
      refine ⟨?_, ?_⟩
      · intro _ hac
        exact absurd hac ha
      · exact ih false (wsChar c) (fun _ => rfl)

theorem titleWordsProp_pyTitle (l : Str) : titleWordsProp true (pyTitle l) :=
  titleWordsProp_pyTitleAux l false true (fun _ => rfl)

theorem toLowStr_no_upper (l : Str) : ∀ c ∈ toLowStr l, upChar c = false := by
  intro c hc
  obtain ⟨a, _, rfl⟩ := List.mem_map.mp hc
  exact upChar_toLow_false a

/-- C9: after `clean_strings` no text cell has leading or trailing
whitespace, `first_name`, `last_name` and `city` are title-cased (the
first letter of each whitespace-delimited word is uppercase), and
`email` contains no uppercase letter. -/
theorem clean_strings_spec : ∀ t : List RawRecord, ∀ r ∈ clean_strings t,
    (noEdge r.first_name ∧ noEdge r.last_name ∧ noEdge r.email ∧ noEdge r.gender ∧
     noEdge r.department ∧ noEdge r.currency ∧ noEdge r.country ∧ noEdge r.state ∧
     noEdge r.city ∧ noEdge r.salary ∧ noEdge r.manager_id ∧ noEdge r.hire_date ∧
     noEdge r.exit_date) ∧
    (titleWordsProp true r.first_name ∧ titleWordsProp true r.last_name ∧
     titleWordsProp true r.city) ∧
    (∀ c ∈ r.email, upChar c = false) := by
  intro t r hr
  obtain ⟨r0, _, rfl⟩ := List.mem_map.mp hr
  refine ⟨⟨?_, ?_, ?_, ?_, ?_, ?_, ?_, ?_, ?_, ?_, ?_, ?_, ?_⟩, ⟨?_, ?_, ?_⟩, ?_⟩
  · exact noEdge_pyTitle _ (noEdge_stripL _)
  · exact noEdge_pyTitle _ (noEdge_stripL _)
  · exact noEdge_toLowStr _ (noEdge_stripL _)
  · exact noEdge_stripL _
  · exact noEdge_stripL _
  · exact noEdge_stripL _
  · exact noEdge_stripL _
  · exact noEdge_stripL _
  · exact noEdge_pyTitle _ (noEdge_stripL _)
  · exact noEdge_stripL _
  · exact noEdge_stripL _
  · exact noEdge_stripL _
  · exact noEdge_stripL _
  · exact titleWordsProp_pyTitle _
  · exact titleWordsProp_pyTitle _
  · exact titleWordsProp_pyTitle _
  · exact toLowStr_no_upper _

/-- C9 witness: the raw first name " john doe " is title-cased by
`clean_strings`. -/
theorem clean_strings_spec_witness :
    titleWordsProp true (cleanRow rawName).first_name :=
  ((clean_strings_spec [rawName] (cleanRow rawName) (by simp [clean_strings])).2.1).1


/-- C10: a missing text cell becomes the literal non-empty string
"nan" (here for `email`), and such a record reaches `validate_emails`
with email "nan" and is flagged `email_valid = false` instead of
carrying a missing marker. -/
theorem missing_text_nan : ∀ r : RawRecord, r.email = none →
    astypeStr r.email = strOf "nan" ∧
    strOf "nan" ≠ ([] : Str) ∧
    (cleanRow r).email = strOf "nan" ∧
    (validate_emails (standardize_all (convert_data_types (clean_strings [r])))).map
      (fun x => x.email_valid) = [false] := by
  intro r h
  have he : (cleanRow r).email = strOf "nan" := by
    show toLowStr (stripL (astypeStr r.email)) = strOf "nan"
    rw [h]
    decide
  refine ⟨by rw [h]; rfl, by decide, he, ?_⟩
  have he2 : (stdRec (convRow (cleanRow r))).email = strOf "nan" := he
  simp only [clean_strings, List.map_cons, List.map_nil, convert_data_types,
    standardize_all_eq, validate_emails]
  rw [he2]
  decide

/-- C10 witness: the all-missing raw row is flagged with
`email_valid = false`. -/
theorem missing_text_nan_witness :
    (validate_emails (standardize_all (convert_data_types (clean_strings [baseRaw])))).map
      (fun x => x.email_valid) = [false] :=
  (missing_text_nan baseRaw rfl).2.2.2

end EDC
